import Mathlib

set_option maxHeartbeats 1000000

namespace Gex

/-- Characters of a Rust string slice. The SSH merger and the storage layer
operate on plain character sequences. -/
abbrev Str := List Char

/-- Mirrors Rust str starts_with with a string pattern: the second argument is
the pattern. -/
def startsWith : Str → Str → Bool
  | _, [] => true
  | [], _ :: _ => false
  | a :: s, b :: p => a == b && startsWith s p

/-- Mirrors Rust str ends_with with a string pattern. -/
def endsWith (s p : Str) : Bool := startsWith s.reverse p.reverse

/-- Mirrors Rust str trim: drop whitespace from both ends. -/
def trim (s : Str) : Str :=
  ((s.dropWhile (fun c => c.isWhitespace)).reverse.dropWhile (fun c => c.isWhitespace)).reverse

/-- Strip one trailing carriage return, as Rust lines does on segments that
were terminated by a newline. -/
def rstrip_cr (l : Str) : Str := if l.getLast? = some ('\r') then l.dropLast else l

/-- Split a character sequence at every newline character. Always returns a
nonempty list; a trailing newline yields a trailing empty segment. -/
def split_on_nl : Str → List Str
  | [] => [[]]
  | c :: rest =>
    match split_on_nl rest with
    | [] => [[]]
    | l :: ls => if c = ('\n') then [] :: l :: ls else (c :: l) :: ls

/-- Post-processing of split segments for the Rust lines iterator: every
segment except the last was newline-terminated and has one trailing carriage
return stripped; the last segment is kept as is, or dropped when empty. -/
def lines_aux : List Str → List Str
  | [] => []
  | [l] => if l = [] then [] else [l]
  | l :: ls => rstrip_cr l :: lines_aux ls

/-- Mirrors Rust str lines, as used by update_config_content and
remove_host_from_content in src/ssh/config.rs. -/
def lines (content : Str) : List Str := lines_aux (split_on_nl content)

/-- Rebuild file content from kept lines: the Rust loop pushes each kept line
followed by one newline. -/
def joinLines : List Str → Str
  | [] => []
  | l :: ls => l ++ ('\n') :: joinLines ls

/-- Profile record from src/profile/mod.rs. -/
structure Profile where
  name : Str
  username : Str
  email : Str
  ssh_key_name : Str
deriving DecidableEq

/-- Profile.ssh_host from src/profile/mod.rs. -/
def Profile.ssh_host (p : Profile) : Str := ("github.com-".data) ++ p.name

/-- SSHConfigManager.get_ssh_key_path: join of the users home directory,
the .ssh directory and the key name. The home directory is an explicit
parameter of the model. -/
def get_ssh_key_path (home key_name : Str) : Str := home ++ ("/.ssh/".data) ++ key_name

/-- The marker comment line written before each managed host block,
from src/ssh/config.rs line 119. -/
def host_marker (name : Str) : Str := ("# GitHub Profile: ".data) ++ name

/-- The inner while loop of update_config_content and
remove_host_from_content (src/ssh/config.rs lines 142-172 and 202-232):
after the marker line was consumed, skip the Host stanza and its
indented or blank continuation lines, returning the unconsumed suffix. -/
def skip_block : Bool → List Str → List Str
  | _, [] => []
  | inHostBlock, line :: rest =>
    if startsWith line ("Host ".data) ∧ ¬ inHostBlock then
      skip_block true rest
    else if inHostBlock ∧ (startsWith line ("  ".data) ∨ trim line = []) then
      skip_block inHostBlock rest
    else if startsWith (trim line) ("#".data) ∨ startsWith line ("Host ".data) then
      line :: rest
    else if trim line = [] then
      skip_block inHostBlock rest
    else
      line :: rest

/-- The outer while loop shared by update_config_content and
remove_host_from_content: copy every line, except that a line equal to the
marker is dropped together with the block that skip_block consumes. -/
def process_lines (marker : Str) : List Str → List Str
  | [] => []
  | line :: rest =>
    if line = marker then process_lines marker (skip_block false rest)
    else line :: process_lines marker rest
termination_by ls => ls.length
decreasing_by
  · have h : ∀ (b : Bool) (ls : List Str), (skip_block b ls).length ≤ ls.length := by
      intro b ls
      induction ls generalizing b with
      | nil => simp [skip_block]
      | cons l t ih =>
        simp only [skip_block]
        repeat' split
        all_goals
          first
            | exact Nat.le_succ_of_le (ih _)
            | exact Nat.le_refl _
    simp only [List.length_cons]
    exact Nat.lt_succ_of_le (h false _)
  · simp only [List.length_cons]
    exact Nat.lt_succ_of_le (Nat.le_refl _)

/-- The block rendered by update_config_content (src/ssh/config.rs lines
124-129): marker line, Host alias line, and the indented HostName, User,
IdentityFile and IdentitiesOnly lines, each newline-terminated. -/
def new_entry (home : Str) (profile : Profile) : Str :=
  host_marker profile.name ++ ("\nHost github.com-".data) ++ profile.name ++
    ("\n  HostName github.com\n  User git\n  IdentityFile ".data) ++
    get_ssh_key_path home profile.ssh_key_name ++ ("\n  IdentitiesOnly yes\n".data)

/-- SSHConfigManager.update_config_content (src/ssh/config.rs lines 118-187):
delete any existing block for the profile, then append the freshly rendered
block, preceded by one extra newline unless the kept content is empty or
already ends in a blank line. -/
def update_config_content (home content : Str) (profile : Profile) : Str :=
  let result := joinLines (process_lines (host_marker profile.name) (lines content))
  let result :=
    if result ≠ [] ∧ ¬ endsWith result ("\n\n".data) then result ++ ("\n".data) else result
  result ++ new_entry home profile

/-- SSHConfigManager.remove_host_from_content (src/ssh/config.rs lines
190-241): the same deletion scan with nothing appended. -/
def remove_host_from_content (content profile_name : Str) : Str :=
  joinLines (process_lines (host_marker profile_name) (lines content))

/-- The six lines of the rendered block, in the order they are emitted. -/
def entry_lines (home : Str) (p : Profile) : List Str :=
  [host_marker p.name,
   ("Host github.com-".data) ++ p.name,
   ("  HostName github.com".data),
   ("  User git".data),
   ("  IdentityFile ".data) ++ get_ssh_key_path home p.ssh_key_name,
   ("  IdentitiesOnly yes".data)]

/-- A line is clean when it contains no newline and carries no trailing
carriage return: exactly the lines that survive a split and rejoin intact. -/
abbrev clean_line (l : Str) : Prop := ('\n') ∉ l ∧ rstrip_cr l = l

/-- The kept lines together with the optional blank separator line that
update_config_content inserts before the appended block. -/
def append_pad (ls : List Str) : List Str :=
  if joinLines ls ≠ [] ∧ ¬ endsWith (joinLines ls) ("\n\n".data) then ls ++ [[]] else ls

/-- ConfigScope from src/git/mod.rs. -/
inductive ConfigScope where
  | Global
  | Local
deriving DecidableEq

/-- ProfileError from src/error.rs; payload-free constructors stand in for
the variants whose payloads the claims never inspect. -/
inductive ProfileError where
  | ProfileNotFound (name : Str)
  | ProfileExists (name : Str)
  | SshKeyNotFound (path : Str)
  | NotGitRepo
  | GitNotInstalled
  | ConfigCorrupted
  | PermissionDenied
  | InvalidInput (msg : Str)
  | Io
  | Json
deriving DecidableEq

/-- StorageData from src/storage/mod.rs. -/
structure StorageData where
  version : Str
  profiles : List Profile
  last_modified : Str
deriving DecidableEq

/-- StorageData.new: the empty collection, stamped with the current time,
which the model passes in explicitly. -/
def StorageData.new (now : Str) : StorageData := ⟨("1.0.0".data), [], now⟩

/-- The mutable environment the program acts on: the profile store file, the
SSH config file and its backup, the set of existing key files in the users
ssh directory, the scoped git identity configuration, and whether the current
directory is a repository. File contents are modeled as parsed values; disk
failures and corruption are out of scope of the claims settled here. -/
structure World where
  storageFile : Option StorageData
  sshConfigFile : Option Str
  sshBakFile : Option Str
  sshKeys : List Str
  globalName : Option Str
  globalEmail : Option Str
  localName : Option Str
  localEmail : Option Str
  isRepo : Bool
  now : Str
deriving DecidableEq

/-- StorageService.load together with ensure_config_exists: when the file is
absent an empty collection is created and written, then the data is read. -/
def load (w : World) : StorageData × World :=
  match w.storageFile with
  | none => (StorageData.new w.now, { w with storageFile := some (StorageData.new w.now) })
  | some d => (d, w)

/-- StorageService.save: replace the file contents. -/
def save (w : World) (d : StorageData) : World := { w with storageFile := some d }

/-- Rust Iterator position, as used by update_profile and delete_profile. -/
def position (pred : Profile → Bool) : List Profile → Option Nat
  | [] => none
  | p :: ps => if pred p then some 0 else (position pred ps).map (· + 1)

/-- ProfileManager.profile_exists (src/profile/manager.rs lines 99-102). -/
def profile_exists (w : World) (name : Str) : Bool × World :=
  let (d, w) := load w
  (d.profiles.any (fun p => p.name == name), w)

/-- ProfileManager.create_profile (src/profile/manager.rs lines 17-34). -/
def create_profile (w : World) (profile : Profile) : Except ProfileError Unit × World :=
  let (ex, w) := profile_exists w profile.name
  if ex then (Except.error (ProfileError.ProfileExists profile.name), w)
  else
    let (d, w) := load w
    (Except.ok (), save w { d with profiles := d.profiles ++ [profile], last_modified := w.now })

/-- ProfileManager.get_profile (src/profile/manager.rs lines 37-46). -/
def get_profile (w : World) (name : Str) : Option Profile × World :=
  let (d, w) := load w
  (d.profiles.find? (fun p => p.name == name), w)

/-- ProfileManager.get_all_profiles (src/profile/manager.rs lines 49-52). -/
def get_all_profiles (w : World) : List Profile × World :=
  let (d, w) := load w
  (d.profiles, w)

/-- ProfileManager.update_profile (src/profile/manager.rs lines 55-74):
replace in place at the position of the first profile with the given name. -/
def update_profile (w : World) (name : Str) (updated_profile : Profile) :
    Except ProfileError Unit × World :=
  let (d, w) := load w
  match position (fun p => p.name == name) d.profiles with
  | none => (Except.error (ProfileError.ProfileNotFound name), w)
  | some i =>
    (Except.ok (), save w { d with profiles := d.profiles.set i updated_profile, last_modified := w.now })

/-- ProfileManager.delete_profile (src/profile/manager.rs lines 77-96). -/
def delete_profile (w : World) (name : Str) : Except ProfileError Unit × World :=
  let (d, w) := load w
  match position (fun p => p.name == name) d.profiles with
  | none => (Except.error (ProfileError.ProfileNotFound name), w)
  | some i =>
    (Except.ok (), save w { d with profiles := d.profiles.eraseIdx i, last_modified := w.now })

/-- SSHConfigManager.ensure_ssh_config_exists: create an empty file when
absent. -/
def ensure_ssh_config_exists (w : World) : World :=
  match w.sshConfigFile with
  | none => { w with sshConfigFile := some [] }
  | some _ => w

/-- SSHConfigManager.backup_ssh_config: when the file exists, copy its
contents to the backup path. -/
def backup_ssh_config (w : World) : World :=
  match w.sshConfigFile with
  | none => w
  | some c => { w with sshBakFile := some c }

/-- SSHConfigManager.add_or_update_host (src/ssh/config.rs lines 69-89):
ensure the file, back it up, and rewrite it via update_config_content. -/
def add_or_update_host (home : Str) (w : World) (profile : Profile) : World :=
  let w := ensure_ssh_config_exists w
  let w := backup_ssh_config w
  match w.sshConfigFile with
  | none => w
  | some content => { w with sshConfigFile := some (update_config_content home content profile) }

/-- SSHConfigManager.remove_host (src/ssh/config.rs lines 92-115): return
immediately when the file is absent, otherwise back up and rewrite via
remove_host_from_content. -/
def remove_host (w : World) (profile_name : Str) : World :=
  match w.sshConfigFile with
  | none => w
  | some content =>
    let w := backup_ssh_config w
    { w with sshConfigFile := some (remove_host_from_content content profile_name) }

/-- SSHConfigManager.validate_ssh_key: the key file exists in the users ssh
directory. -/
def validate_ssh_key (w : World) (key_name : Str) : Bool := w.sshKeys.contains key_name

/-- GitConfigManager.is_git_repository. -/
def is_git_repository (w : World) : Bool := w.isRepo

/-- GitConfigManager.apply_profile (src/git/config.rs lines 44-57): reject
Local scope outside a repository before any set, then set user.name and
user.email for the scope. -/
def apply_profile (w : World) (profile : Profile) (scope : ConfigScope) :
    Except ProfileError Unit × World :=
  if scope = ConfigScope.Local ∧ ¬ is_git_repository w then
    (Except.error ProfileError.NotGitRepo, w)
  else
    match scope with
    | ConfigScope.Global =>
      (Except.ok (),
        { w with globalName := some profile.username, globalEmail := some profile.email })
    | ConfigScope.Local =>
      (Except.ok (),
        { w with localName := some profile.username, localEmail := some profile.email })

/-- ProfileSwitcher.switch_profile (src/switcher/mod.rs lines 32-66):
look up the profile, validate the SSH key, apply the git config for the
scope, then upsert the SSH host block. The world is threaded through every
step so that early failures leave later resources untouched. -/
def switch_profile (home : Str) (w : World) (profile_name : Str) (scope : ConfigScope) :
    Except ProfileError Unit × World :=
  let (found, w) := get_profile w profile_name
  match found with
  | none => (Except.error (ProfileError.ProfileNotFound profile_name), w)
  | some profile =>
    if ¬ validate_ssh_key w profile.ssh_key_name then
      (Except.error (ProfileError.SshKeyNotFound (get_ssh_key_path home profile.ssh_key_name)), w)
    else
      match apply_profile w profile scope with
      | (Except.error e, w) => (Except.error e, w)
      | (Except.ok _, w) => (Except.ok (), add_or_update_host home w profile)

/-- GitConfigManager.get_config restricted to the two identity keys the
program reads, resolved against the modeled scoped configuration. -/
def get_config (w : World) (scope : ConfigScope) (key : Str) : Option Str :=
  match scope with
  | ConfigScope.Global =>
    if key = ("user.name".data) then w.globalName
    else if key = ("user.email".data) then w.globalEmail
    else none
  | ConfigScope.Local =>
    if key = ("user.name".data) then w.localName
    else if key = ("user.email".data) then w.localEmail
    else none

/-- GitConfigManager.get_current_profile (src/git/config.rs lines 33-41):
Some only when both user.name and user.email are set for the scope. -/
def get_current_profile (w : World) (scope : ConfigScope) : Option (Str × Str) :=
  match get_config w scope ("user.name".data), get_config w scope ("user.email".data) with
  | some u, some e => some (u, e)
  | _, _ => none

/-- The for loop inside ProfileSwitcher.find_profile_by_credentials
(src/switcher/mod.rs lines 96-106): first profile, in stored order, whose
username and email both match. -/
def find_profile_loop (username email : Str) : List Profile → Option Profile
  | [] => none
  | p :: ps =>
    if p.username == username && p.email == email then some p
    else find_profile_loop username email ps

/-- ProfileSwitcher.find_profile_by_credentials. -/
def find_profile_by_credentials (w : World) (username email : Str) : Option Profile × World :=
  let (ps, w) := get_all_profiles w
  (find_profile_loop username email ps, w)

/-- ProfileStatus from src/switcher/mod.rs; loc stands for the field named
local in the source. -/
structure ProfileStatus where
  global : Option Profile
  loc : Option Profile
deriving DecidableEq

/-- ProfileSwitcher.get_current_status (src/switcher/mod.rs lines 69-93). -/
def get_current_status (w : World) : ProfileStatus × World :=
  let (g, w) :=
    match get_current_profile w ConfigScope.Global with
    | some (u, e) => find_profile_by_credentials w u e
    | none => (none, w)
  let (l, w) :=
    if is_git_repository w then
      match get_current_profile w ConfigScope.Local with
      | some (u, e) => find_profile_by_credentials w u e
      | none => (none, w)
    else (none, w)
  (⟨g, l⟩, w)

/-- handle_delete (src/cli/handlers.rs lines 97-121): existence check, then
the interactive confirmation (modeled as the confirm argument), then
delete_profile. No SSH operation is invoked. -/
def handle_delete (w : World) (name : Str) (confirm : Bool) :
    Except ProfileError Unit × World :=
  let (ex, w) := profile_exists w name
  if ¬ ex then (Except.error (ProfileError.ProfileNotFound name), w)
  else if ¬ confirm then (Except.ok (), w)
  else delete_profile w name

/-- The profiles currently persisted, reading an absent store file as the
empty collection that load would create. -/
def stored_profiles (w : World) : List Profile :=
  match w.storageFile with
  | none => []
  | some d => d.profiles

/-- Name uniqueness invariant of the stored collection. -/
abbrev names_unique (w : World) : Prop :=
  ((stored_profiles w).map (fun p => p.name)).Nodup

namespace GitExec

/-- Outcome of one git subprocess invocation. The keyNotSet flag is ghost
information recording whether the tool exited non-zero because the queried
key is unset, as opposed to any other command failure; the wrapper below
cannot observe it. -/
inductive GitOutcome where
  | success (stdout : Str)
  | nonZeroExit (keyNotSet : Bool) (stderr : Str)
  | spawnNotFound
  | spawnIoError
deriving DecidableEq

/-- execute_git (src/git/executor.rs lines 5-24): spawn failures map to
GitNotInstalled or Io, a non-zero exit maps to InvalidInput carrying the
diagnostic, success yields trimmed stdout. -/
def execute_git (outcome : GitOutcome) : Except ProfileError Str :=
  match outcome with
  | GitOutcome.success stdout => Except.ok (trim stdout)
  | GitOutcome.nonZeroExit _ stderr =>
    Except.error (ProfileError.InvalidInput (("Git command failed: ".data) ++ trim stderr))
  | GitOutcome.spawnNotFound => Except.error ProfileError.GitNotInstalled
  | GitOutcome.spawnIoError => Except.error ProfileError.Io

/-- GitConfigManager.get_config (src/git/config.rs lines 18-25): an
InvalidInput failure from the executor is mapped to None, every other error
propagates. -/
def get_config (outcome : GitOutcome) : Except ProfileError (Option Str) :=
  match execute_git outcome with
  | Except.ok value => Except.ok (some value)
  | Except.error (ProfileError.InvalidInput _) => Except.ok none
  | Except.error e => Except.error e

end GitExec

/-- An empty environment used to build the concrete scenarios below. -/
def baseWorld : World :=
  { storageFile := none, sshConfigFile := none, sshBakFile := none, sshKeys := [],
    globalName := none, globalEmail := none, localName := none, localEmail := none,
    isRepo := false, now := ("t0".data) }

/-- Install a concrete profile collection into a world. -/
def withProfiles (w : World) (ps : List Profile) : World :=
  { w with storageFile := some ⟨("1.0.0".data), ps, w.now⟩ }

/-- Concrete profile named a. -/
def profA : Profile := ⟨("a".data), ("ua".data), ("ea".data), ("ka".data)⟩

/-- Concrete profile named b. -/
def profB : Profile := ⟨("b".data), ("ub".data), ("eb".data), ("kb".data)⟩

/-- Concrete replacement profile that renames a to the already taken name b. -/
def profB2 : Profile := ⟨("b".data), ("u2".data), ("e2".data), ("k2".data)⟩

/-- Concrete profile named work, as in the end-to-end scenarios of the spec. -/
def profWork : Profile := ⟨("work".data), ("jdoe".data), ("j@co.com".data), ("id_rsa_work".data)⟩

/-- A store holding the two distinct profiles a and b. -/
def worldAB : World := withProfiles baseWorld [profA, profB]

/-- SSH config contents holding exactly the rendered host block of the work
profile. -/
def sshBlockWork : Str :=
  ("# GitHub Profile: work\nHost github.com-work\n  HostName github.com\n  User git\n  IdentityFile /home/u/.ssh/id_rsa_work\n  IdentitiesOnly yes\n".data)

/-- A world holding the work profile and an SSH config file that contains its
host block. -/
def worldDelete : World :=
  { withProfiles baseWorld [profWork] with sshConfigFile := some sshBlockWork }

/-- A world holding the work profile whose SSH key file does not exist. -/
def worldKeyMissing : World := withProfiles baseWorld [profWork]

/-- A world holding the work profile, its key file present, outside any
repository. -/
def worldNoRepo : World :=
  { withProfiles baseWorld [profWork] with sshKeys := [("id_rsa_work".data)] }

/-- A world whose global git identity matches the stored work profile. -/
def worldStatus : World :=
  { withProfiles baseWorld [profA, profWork] with
      globalName := some ("jdoe".data), globalEmail := some ("j@co.com".data) }

theorem startsWith_append (p s : Str) : startsWith (p ++ s) p = true := by
  induction p with
  | nil => cases s <;> simp [startsWith]
  | cons a t ih => simp [startsWith, ih]

theorem startsWith_of_length_le (p a s : Str) (h : p.length ≤ a.length) :
    startsWith (a ++ s) p = startsWith a p := by
  induction p generalizing a with
  | nil => cases a <;> simp [startsWith]
  | cons c p ih =>
    cases a with
    | nil => simp at h
    | cons d a =>
      simp only [List.cons_append, startsWith]
      exact congrArg (fun x => (d == c && x)) (ih a (Nat.le_of_succ_le_succ h))

theorem split_on_nl_ne_nil (s : Str) : split_on_nl s ≠ [] := by
  induction s with
  | nil => simp [split_on_nl]
  | cons c rest ih =>
    rcases h : split_on_nl rest with _ | ⟨l, ls⟩
    · exact absurd h ih
    · simp only [split_on_nl, h]
      split <;> simp

theorem split_on_nl_cons_nl (l t : Str) (h : ('\n') ∉ l) :
    split_on_nl (l ++ ('\n') :: t) = l :: split_on_nl t := by
  induction l with
  | nil =>
    simp only [List.nil_append]
    rcases h2 : split_on_nl t with _ | ⟨x, xs⟩
    · exact absurd h2 (split_on_nl_ne_nil t)
    · simp [split_on_nl, h2]
  | cons c l ih =>
    have hc : c ≠ ('\n') := by
      intro e
      exact h (e ▸ List.mem_cons_self c l)
    have hl : ('\n') ∉ l := fun hm => h (List.mem_cons_of_mem _ hm)
    rw [show ((c :: l) ++ ('\n') :: t : Str) = c :: (l ++ ('\n') :: t) from rfl]
    rw [split_on_nl, ih hl]
    simp [hc]

theorem joinLines_append (a b : List Str) : joinLines (a ++ b) = joinLines a ++ joinLines b := by
  induction a with
  | nil => simp [joinLines]
  | cons l ls ih => simp [joinLines, ih]

theorem split_join (ls : List Str) (t : Str) (h : ∀ l ∈ ls, ('\n') ∉ l) :
    split_on_nl (joinLines ls ++ t) = ls ++ split_on_nl t := by
  induction ls with
  | nil => simp [joinLines]
  | cons l ls ih =>
    have h1 := h l (List.mem_cons_self _ _)
    have step : joinLines (l :: ls) ++ t = l ++ ('\n') :: (joinLines ls ++ t) := by
      simp [joinLines]
    rw [step, split_on_nl_cons_nl _ _ h1, ih (fun x hx => h x (List.mem_cons_of_mem _ hx))]
    simp

theorem lines_aux_append (ls rest : List Str) (h : rest ≠ []) :
    lines_aux (ls ++ rest) = ls.map rstrip_cr ++ lines_aux rest := by
  induction ls with
  | nil => simp
  | cons l ls ih =>
    cases hx : ls ++ rest with
    | nil => exact absurd (List.append_eq_nil.mp hx).2 h
    | cons x xs =>
      have : lines_aux (l :: ls ++ rest) = rstrip_cr l :: lines_aux (ls ++ rest) := by
        rw [List.cons_append, hx]
        rfl
      rw [this, ih]
      simp

theorem lines_join (ls : List Str) (t : Str) (h : ∀ l ∈ ls, ('\n') ∉ l) :
    lines (joinLines ls ++ t) = ls.map rstrip_cr ++ lines t := by
  unfold lines
  rw [split_join ls t h, lines_aux_append _ _ (split_on_nl_ne_nil t)]

theorem lines_join_nil (ls : List Str) (h : ∀ l ∈ ls, ('\n') ∉ l) :
    lines (joinLines ls) = ls.map rstrip_cr := by
  have h2 := lines_join ls [] h
  simpa [lines, split_on_nl, lines_aux] using h2

theorem not_mem_nl_split (s : Str) : ∀ l ∈ split_on_nl s, ('\n') ∉ l := by
  induction s with
  | nil => simp [split_on_nl]
  | cons c rest ih =>
    cases h : split_on_nl rest with
    | nil => exact absurd h (split_on_nl_ne_nil rest)
    | cons x xs =>
      intro l hl
      simp only [split_on_nl, h] at hl
      by_cases hc : c = ('\n')
      · simp only [if_pos hc] at hl
        rcases List.mem_cons.mp hl with rfl | hl2
        · simp
        · exact ih l (h ▸ hl2)
      · simp only [if_neg hc] at hl
        rcases List.mem_cons.mp hl with rfl | hl2
        · have hx : ('\n') ∉ x := ih x (by simp [h])
          intro hm
          rcases List.mem_cons.mp hm with e | hm2
          · exact hc e.symm
          · exact hx hm2
        · exact ih l (by simp [h, hl2])

theorem dropLast_subset_self (l : Str) : l.dropLast ⊆ l := by
  rw [List.dropLast_eq_take]
  exact List.take_subset _ _

theorem not_mem_rstrip_cr {l : Str} (h : ('\n') ∉ l) : ('\n') ∉ rstrip_cr l := by
  unfold rstrip_cr
  split
  · exact fun hm => h (dropLast_subset_self l hm)
  · exact h

theorem mem_lines_aux (ls : List Str) :
    ∀ l ∈ lines_aux ls, ∃ x ∈ ls, l = rstrip_cr x ∨ l = x := by
  induction ls with
  | nil => simp [lines_aux]
  | cons a ls ih =>
    cases ls with
    | nil =>
      intro l hl
      by_cases ha : a = []
      · simp [lines_aux, ha] at hl
      · simp only [lines_aux, if_neg ha] at hl
        have hla : l = a := by simpa using hl
        exact ⟨a, by simp, Or.inr hla⟩
    | cons b ls2 =>
      intro l hl
      have : lines_aux (a :: b :: ls2) = rstrip_cr a :: lines_aux (b :: ls2) := rfl
      rw [this] at hl
      rcases List.mem_cons.mp hl with rfl | hm
      · exact ⟨a, by simp, Or.inl rfl⟩
      · obtain ⟨x, hx, hor⟩ := ih l hm
        exact ⟨x, List.mem_cons_of_mem _ hx, hor⟩

theorem not_mem_nl_lines (s : Str) : ∀ l ∈ lines s, ('\n') ∉ l := by
  intro l hl
  obtain ⟨x, hx, hor⟩ := mem_lines_aux (split_on_nl s) l hl
  have hxnl : ('\n') ∉ x := not_mem_nl_split s x hx
  rcases hor with rfl | rfl
  · exact not_mem_rstrip_cr hxnl
  · exact hxnl

theorem skip_block_suffix (b : Bool) (ls : List Str) : (skip_block b ls) <:+ ls := by
  induction ls generalizing b with
  | nil => simp [skip_block]
  | cons l t ih =>
    simp only [skip_block]
    repeat' split
    all_goals
      first
        | exact (ih _).trans (List.suffix_cons l t)
        | exact List.suffix_refl _

theorem mem_of_mem_skip_block {b : Bool} {ls : List Str} {l : Str}
    (h : l ∈ skip_block b ls) : l ∈ ls :=
  (skip_block_suffix b ls).subset h

theorem skip_block_length_le (b : Bool) (ls : List Str) :
    (skip_block b ls).length ≤ ls.length :=
  (skip_block_suffix b ls).length_le

theorem process_lines_not_mem_aux (marker : Str) :
    ∀ (n : Nat) (ls : List Str), ls.length ≤ n → marker ∉ process_lines marker ls := by
  intro n
  induction n with
  | zero =>
    intro ls h
    have : ls = [] := List.eq_nil_of_length_eq_zero (Nat.le_zero.mp h)
    subst this
    simp [process_lines]
  | succ n ih =>
    intro ls h
    cases ls with
    | nil => simp [process_lines]
    | cons line rest =>
      simp only [process_lines]
      split
      · exact ih _ (le_trans (skip_block_length_le false rest) (Nat.le_of_succ_le_succ h))
      · rename_i hne
        intro hm
        rcases List.mem_cons.mp hm with e | hm2
        · exact hne e.symm
        · exact ih rest (Nat.le_of_succ_le_succ h) hm2

theorem process_lines_not_mem (marker : Str) (ls : List Str) :
    marker ∉ process_lines marker ls :=
  process_lines_not_mem_aux marker ls.length ls (Nat.le_refl _)

theorem mem_of_mem_process_lines_aux (marker : Str) :
    ∀ (n : Nat) (ls : List Str), ls.length ≤ n →
      ∀ l ∈ process_lines marker ls, l ∈ ls := by
  intro n
  induction n with
  | zero =>
    intro ls h
    have : ls = [] := List.eq_nil_of_length_eq_zero (Nat.le_zero.mp h)
    subst this
    simp [process_lines]
  | succ n ih =>
    intro ls h l hl
    cases ls with
    | nil => simp [process_lines] at hl
    | cons line rest =>
      simp only [process_lines] at hl
      split at hl
      · have h1 := ih _ (le_trans (skip_block_length_le false rest) (Nat.le_of_succ_le_succ h)) l hl
        exact List.mem_cons_of_mem _ (mem_of_mem_skip_block h1)
      · rcases List.mem_cons.mp hl with rfl | hm2
        · exact List.mem_cons_self _ _
        · exact List.mem_cons_of_mem _ (ih rest (Nat.le_of_succ_le_succ h) l hm2)

theorem mem_of_mem_process_lines {marker : Str} {ls : List Str} {l : Str}
    (h : l ∈ process_lines marker ls) : l ∈ ls :=
  mem_of_mem_process_lines_aux marker ls.length ls (Nat.le_refl _) l h

theorem process_lines_append (marker : Str) (ls t : List Str) (h : marker ∉ ls) :
    process_lines marker (ls ++ t) = ls ++ process_lines marker t := by
  induction ls with
  | nil => simp
  | cons l ls ih =>
    have h1 : ¬ l = marker := fun e => h (e ▸ List.mem_cons_self _ _)
    simp only [List.cons_append, process_lines, if_neg h1]
    rw [ih (fun hm => h (List.mem_cons_of_mem _ hm))]

theorem process_lines_id (marker : Str) (ls : List Str) (h : marker ∉ ls) :
    process_lines marker ls = ls := by
  have h2 := process_lines_append marker ls [] h
  simpa [process_lines] using h2

theorem host_marker_head (n : Str) : (host_marker n).head? = some ('#') := rfl

theorem host_marker_ne_nil (n : Str) : host_marker n ≠ [] := by
  intro e
  have h2 := congrArg List.head? e
  rw [host_marker_head] at h2
  simp at h2

theorem ne_host_marker_of_head {l : Str} (n : Str) (h : l.head? ≠ some ('#')) :
    l ≠ host_marker n := by
  intro e
  exact h (by rw [e, host_marker_head])

theorem process_entry (home : Str) (p : Profile) :
    process_lines (host_marker p.name) (entry_lines home p) = [] := by
  simp only [entry_lines, process_lines, if_pos rfl]
  simp +decide [skip_block, startsWith, trim, process_lines]

theorem count_entry_lines (home : Str) (p : Profile) :
    (entry_lines home p).count (host_marker p.name) = 1 := by
  have n2 : (("Host github.com-".data) ++ p.name) ≠ host_marker p.name :=
    ne_host_marker_of_head _
      (by rw [show ((("Host github.com-".data) ++ p.name : Str)).head? = some 'H' from rfl]; decide)
  have n3 : (("  HostName github.com".data) : Str) ≠ host_marker p.name :=
    ne_host_marker_of_head _ (by decide)
  have n4 : (("  User git".data) : Str) ≠ host_marker p.name :=
    ne_host_marker_of_head _ (by decide)
  have n5 : (("  IdentityFile ".data) ++ get_ssh_key_path home p.ssh_key_name) ≠
      host_marker p.name :=
    ne_host_marker_of_head _
      (by rw [show ((("  IdentityFile ".data) ++ get_ssh_key_path home p.ssh_key_name :
        Str)).head? = some ' ' from rfl]; decide)
  have n6 : (("  IdentitiesOnly yes".data) : Str) ≠ host_marker p.name :=
    ne_host_marker_of_head _ (by decide)
  simp [entry_lines, List.count_cons, beq_iff_eq, n2, n3, n4, n5, n6]
  exact ⟨n5, n2⟩

theorem new_entry_eq (home : Str) (p : Profile) :
    new_entry home p = joinLines (entry_lines home p) := by
  have e1 : ("\nHost github.com-".data : Str) = ('\n') :: ("Host github.com-".data) := rfl
  have e2 : ("\n  HostName github.com\n  User git\n  IdentityFile ".data : Str) =
      ('\n') :: (("  HostName github.com".data) ++
        ('\n') :: (("  User git".data) ++ ('\n') :: ("  IdentityFile ".data))) := rfl
  have e3 : ("\n  IdentitiesOnly yes\n".data : Str) =
      ('\n') :: (("  IdentitiesOnly yes".data) ++ [('\n')]) := rfl
  simp [new_entry, entry_lines, joinLines, e1, e2, e3]

theorem upsert_eq (home content : Str) (p : Profile) :
    update_config_content home content p =
      joinLines (append_pad (process_lines (host_marker p.name) (lines content))) ++
        new_entry home p := by
  simp only [update_config_content, append_pad]
  split
  · rw [joinLines_append]
    simp [joinLines]
  · rfl

theorem joinLines_ends_nl (ls : List Str) (h : ls ≠ []) :
    ∃ a, joinLines ls = a ++ [('\n')] := by
  induction ls with
  | nil => exact absurd rfl h
  | cons l t ih =>
    cases t with
    | nil => exact ⟨l, by simp [joinLines]⟩
    | cons x xs =>
      obtain ⟨a, ha⟩ := ih (by simp)
      refine ⟨l ++ ('\n') :: a, ?_⟩
      show l ++ ('\n') :: joinLines (x :: xs) = (l ++ ('\n') :: a) ++ [('\n')]
      rw [ha]
      simp

theorem endsWith_two_nl (a : Str) :
    endsWith ((a ++ [('\n')]) ++ [('\n')]) ("\n\n".data) = true := by
  unfold endsWith
  rw [show ("\n\n".data : Str) = [('\n'), ('\n')] from rfl]
  simp [List.reverse_append, startsWith]

theorem append_pad_cases (ls : List Str) :
    append_pad ls = ls ∨ append_pad ls = ls ++ [[]] := by
  unfold append_pad
  split
  · exact Or.inr rfl
  · exact Or.inl rfl

theorem not_mem_append_pad {marker : Str} {ls : List Str} (hne : marker ≠ [])
    (h : marker ∉ ls) : marker ∉ append_pad ls := by
  rcases append_pad_cases ls with e | e <;> rw [e]
  · exact h
  · intro hm
    rcases List.mem_append.mp hm with hm1 | hm2
    · exact h hm1
    · simp at hm2
      exact hne hm2

theorem append_pad_idem (ls : List Str) : append_pad (append_pad ls) = append_pad ls := by
  by_cases hcond : joinLines ls ≠ [] ∧ ¬ endsWith (joinLines ls) ("\n\n".data)
  · have e1 : append_pad ls = ls ++ [[]] := by
      unfold append_pad
      rw [if_pos hcond]
    have hne : ls ≠ [] := by
      intro e
      exact hcond.1 (by simp [e, joinLines])
    obtain ⟨a, ha⟩ := joinLines_ends_nl ls hne
    have hj : joinLines (ls ++ [[]]) = (a ++ [('\n')]) ++ [('\n')] := by
      rw [joinLines_append, ha]
      simp [joinLines]
    rw [e1]
    unfold append_pad
    rw [if_neg]
    intro hc2
    exact hc2.2 (by rw [hj]; exact endsWith_two_nl a)
  · have e1 : append_pad ls = ls := by
      unfold append_pad
      rw [if_neg hcond]
    rw [e1, e1]

theorem map_rstrip_id {ls : List Str} (h : ∀ l ∈ ls, rstrip_cr l = l) :
    ls.map rstrip_cr = ls := by
  induction ls with
  | nil => rfl
  | cons a t ih =>
    simp [h a (List.mem_cons_self _ _), ih (fun x hx => h x (List.mem_cons_of_mem _ hx))]

theorem lines_upsert (home content : Str) (p : Profile)
    (hp : ∀ l ∈ entry_lines home p, clean_line l)
    (hc : ∀ l ∈ lines content, rstrip_cr l = l) :
    lines (update_config_content home content p) =
      append_pad (process_lines (host_marker p.name) (lines content)) ++ entry_lines home p := by
  have hsub : ∀ l ∈ process_lines (host_marker p.name) (lines content), l ∈ lines content :=
    fun l hl => mem_of_mem_process_lines hl
  have hnl : ∀ l ∈ append_pad (process_lines (host_marker p.name) (lines content)),
      ('\n') ∉ l := by
    intro l hl
    rcases append_pad_cases (process_lines (host_marker p.name) (lines content)) with e | e <;>
      rw [e] at hl
    · exact not_mem_nl_lines content l (hsub l hl)
    · rcases List.mem_append.mp hl with h1 | h1
      · exact not_mem_nl_lines content l (hsub l h1)
      · simp at h1
        subst h1
        simp
  have hcr : ∀ l ∈ append_pad (process_lines (host_marker p.name) (lines content)),
      rstrip_cr l = l := by
    intro l hl
    rcases append_pad_cases (process_lines (host_marker p.name) (lines content)) with e | e <;>
      rw [e] at hl
    · exact hc l (hsub l hl)
    · rcases List.mem_append.mp hl with h1 | h1
      · exact hc l (hsub l h1)
      · simp at h1
        subst h1
        rfl
  rw [upsert_eq, new_entry_eq, lines_join _ _ hnl, map_rstrip_id hcr,
    lines_join_nil _ (fun l hl => (hp l hl).1), map_rstrip_id (fun l hl => (hp l hl).2)]

/-- Claim C1: repeated upserts with unchanged profile data are idempotent.
For any well-formed rendered block (clean entry lines) and any file content
whose lines carry no stray trailing carriage return, a second
update_config_content call reproduces the first result byte for byte, the
result contains exactly one marker line for the profile, and the rendered
block sits at the end of the file. -/
theorem upsert_idempotent (home : Str) (p : Profile) (content : Str)
    (hp : ∀ l ∈ entry_lines home p, clean_line l)
    (hc : ∀ l ∈ lines content, rstrip_cr l = l) :
    update_config_content home (update_config_content home content p) p =
      update_config_content home content p ∧
    (lines (update_config_content home content p)).count (host_marker p.name) = 1 ∧
    ∃ a, update_config_content home content p = a ++ new_entry home p := by
  have hL1 := lines_upsert home content p hp hc
  have hnotmem : host_marker p.name ∉
      append_pad (process_lines (host_marker p.name) (lines content)) :=
    not_mem_append_pad (host_marker_ne_nil p.name) (process_lines_not_mem _ _)
  have hproc2 : process_lines (host_marker p.name)
      (lines (update_config_content home content p)) =
      append_pad (process_lines (host_marker p.name) (lines content)) := by
    rw [hL1, process_lines_append _ _ _ hnotmem, process_entry home p]
    simp
  refine ⟨?_, ?_, ?_⟩
  · rw [upsert_eq home (update_config_content home content p) p, hproc2, append_pad_idem,
      ← upsert_eq home content p]
  · rw [hL1, List.count_append, count_entry_lines, List.count_eq_zero.mpr hnotmem]
  · exact ⟨_, upsert_eq home content p⟩

/-- Claim C3: for file content with no marker line for the profile, upsert
keeps every original line unchanged and in order, appends exactly one new
block at the end, and separates it by at most one inserted blank line. -/
theorem upsert_preserves_unrelated (home : Str) (p : Profile) (content : Str)
    (hp : ∀ l ∈ entry_lines home p, clean_line l)
    (hc : ∀ l ∈ lines content, rstrip_cr l = l)
    (hm : host_marker p.name ∉ lines content) :
    ∃ mid, (mid = [] ∨ mid = [[]]) ∧
      update_config_content home content p =
        joinLines (lines content ++ mid) ++ new_entry home p ∧
      lines (update_config_content home content p) =
        lines content ++ mid ++ entry_lines home p ∧
      (lines (update_config_content home content p)).count (host_marker p.name) = 1 := by
  have hid : process_lines (host_marker p.name) (lines content) = lines content :=
    process_lines_id _ _ hm
  have hmid : host_marker p.name ∉ ([[]] : List Str) := by
    simp [host_marker_ne_nil p.name]
  rcases append_pad_cases (lines content) with e | e
  · refine ⟨[], Or.inl rfl, ?_, ?_, ?_⟩
    · rw [upsert_eq, hid, e]
      simp
    · rw [lines_upsert home content p hp hc, hid, e]
      simp
    · rw [lines_upsert home content p hp hc, hid, e, List.count_append,
        count_entry_lines, List.count_eq_zero.mpr hm]
  · refine ⟨[[]], Or.inr rfl, ?_, ?_, ?_⟩
    · rw [upsert_eq, hid, e]
    · rw [lines_upsert home content p hp hc, hid, e]
    · rw [lines_upsert home content p hp hc, hid, e, List.count_append, List.count_append,
        count_entry_lines, List.count_eq_zero.mpr hm, List.count_eq_zero.mpr hmid]

/-- Claim C4: the block written by upsert consists of the marker line, the
Host alias line for github.com dash name, and the indented HostName,
User git, IdentityFile resolved-key-path and IdentitiesOnly yes lines,
in exactly that order, at the end of the output. -/
theorem upsert_block_structure (home content : Str) (p : Profile) :
    ∃ pre, update_config_content home content p =
      pre ++ joinLines
        [host_marker p.name,
         ("Host github.com-".data) ++ p.name,
         ("  HostName github.com".data),
         ("  User git".data),
         ("  IdentityFile ".data) ++ get_ssh_key_path home p.ssh_key_name,
         ("  IdentitiesOnly yes".data)] :=
  ⟨_, by rw [upsert_eq, new_entry_eq]; rfl⟩

/-- Claim C7 amended: remove is a no-op on an absent file; when the marker is
absent it succeeds and keeps every line (bytes change only by line-ending
normalization, so content that is already in joined form is returned
unchanged); when the marker is present the block is deleted and nothing is
appended: no marker line survives and every output line was an input line. -/
theorem remove_host_spec (w : World) (name content : Str) :
    (w.sshConfigFile = none → remove_host w name = w) ∧
    (host_marker name ∉ lines content →
      remove_host_from_content content name = joinLines (lines content)) ∧
    (host_marker name ∉ lines content → joinLines (lines content) = content →
      remove_host_from_content content name = content) ∧
    ((∀ l ∈ lines content, rstrip_cr l = l) →
      (lines (remove_host_from_content content name)).count (host_marker name) = 0 ∧
      ∀ l ∈ lines (remove_host_from_content content name), l ∈ lines content) := by
  refine ⟨?_, ?_, ?_, ?_⟩
  · intro h
    simp [remove_host, h]
  · intro h
    unfold remove_host_from_content
    rw [process_lines_id _ _ h]
  · intro h h2
    unfold remove_host_from_content
    rw [process_lines_id _ _ h, h2]
  · intro hc
    have hsub : ∀ l ∈ process_lines (host_marker name) (lines content), l ∈ lines content :=
      fun l hl => mem_of_mem_process_lines hl
    have hnl : ∀ l ∈ process_lines (host_marker name) (lines content), ('\n') ∉ l :=
      fun l hl => not_mem_nl_lines content l (hsub l hl)
    have hL : lines (remove_host_from_content content name) =
        process_lines (host_marker name) (lines content) := by
      unfold remove_host_from_content
      rw [lines_join_nil _ hnl, map_rstrip_id (fun l hl => hc l (hsub l hl))]
    constructor
    · rw [hL, List.count_eq_zero]
      exact process_lines_not_mem _ _
    · rw [hL]
      exact hsub

/-- Claim C7 witness: the amended remove semantics exercised on the empty
world, and on concrete content with a trailing newline and no marker. -/
theorem remove_host_spec_witness :
    (remove_host baseWorld ("work".data) = baseWorld) ∧
    (remove_host_from_content ("x\n".data) ("work".data) = joinLines (lines ("x\n".data))) ∧
    (remove_host_from_content ("x\n".data) ("work".data) = ("x\n".data)) ∧
    ((lines (remove_host_from_content ("x\n".data) ("work".data))).count
        (host_marker ("work".data)) = 0 ∧
      ∀ l ∈ lines (remove_host_from_content ("x\n".data) ("work".data)),
        l ∈ lines ("x\n".data)) := by
  have h := remove_host_spec baseWorld ("work".data) ("x\n".data)
  exact ⟨h.1 rfl, h.2.1 (by decide), h.2.2.1 (by decide) (by decide), h.2.2.2 (by decide)⟩

/-- Claim C7 counterexample: with an existing file whose content has no
trailing newline and no marker line, remove rewrites the file to different
bytes (a newline is appended) and creates a backup, so the file content is
not unchanged as the claim states. -/
theorem remove_host_changes_bytes_cex :
    remove_host { baseWorld with sshConfigFile := some ("abc".data) } ("work".data) =
      { baseWorld with
          sshConfigFile := some ("abc\n".data),
          sshBakFile := some ("abc".data) } ∧
    ("abc\n".data : Str) ≠ ("abc".data) := by
  constructor
  · simp +decide [remove_host, backup_ssh_config, remove_host_from_content, lines,
      split_on_nl, lines_aux, process_lines, joinLines, host_marker, rstrip_cr, baseWorld]
  · decide

theorem load_profiles (w : World) : (load w).1.profiles = stored_profiles w := by
  cases h : w.storageFile <;> simp [load, stored_profiles, StorageData.new, h]

theorem stored_load (w : World) : stored_profiles (load w).2 = stored_profiles w := by
  cases h : w.storageFile <;> simp [load, stored_profiles, StorageData.new, h]

theorem position_some {pred : Profile → Bool} :
    ∀ {ps : List Profile} {i : Nat}, position pred ps = some i →
      ∃ p, ps[i]? = some p ∧ pred p = true := by
  intro ps
  induction ps with
  | nil =>
    intro i h
    simp [position] at h
  | cons q ps ih =>
    intro i h
    simp only [position] at h
    by_cases hq : pred q
    · rw [if_pos hq] at h
      have hi : i = 0 := by simpa using (Option.some.injEq _ _ ▸ h).symm
      subst hi
      exact ⟨q, by simp, hq⟩
    · rw [if_neg hq] at h
      cases hps : position pred ps with
      | none =>
        rw [hps] at h
        simp at h
      | some j =>
        rw [hps] at h
        simp at h
        obtain ⟨p, hp1, hp2⟩ := ih hps
        rw [← h]
        exact ⟨p, by simpa using hp1, hp2⟩

theorem set_self_of_getElem {α : Type} [DecidableEq α] :
    ∀ (l : List α) (i : Nat) (a : α), l[i]? = some a → l.set i a = l := by
  intro l
  induction l with
  | nil =>
    intro i a h
    simp at h
  | cons b l ih =>
    intro i a h
    cases i with
    | zero =>
      simp at h
      simp [List.set, h]
    | succ j =>
      simp at h
      simp [List.set, ih j a h]

theorem nodup_set_of_not_mem {α : Type} [DecidableEq α] :
    ∀ (l : List α) (i : Nat) (a : α), l.Nodup → a ∉ l → (l.set i a).Nodup := by
  intro l
  induction l with
  | nil =>
    intro i a _ _
    simp
  | cons b l ih =>
    intro i a hn ha
    have hb : b ∉ l := (List.nodup_cons.mp hn).1
    have hl : l.Nodup := (List.nodup_cons.mp hn).2
    have hab : a ≠ b := fun e => ha (e ▸ List.mem_cons_self _ _)
    have hal : a ∉ l := fun e => ha (List.mem_cons_of_mem _ e)
    cases i with
    | zero =>
      simp [List.set, List.nodup_cons]
      exact ⟨hal, hl⟩
    | succ j =>
      simp only [List.set]
      rw [List.nodup_cons]
      refine ⟨?_, ih j a hl hal⟩
      intro hm
      rcases List.mem_or_eq_of_mem_set hm with h1 | h1
      · exact hb h1
      · exact hab h1.symm

theorem map_name_set (ps : List Profile) (i : Nat) (q : Profile) :
    (ps.set i q).map (fun p => p.name) = (ps.map (fun p => p.name)).set i q.name := by
  induction ps generalizing i with
  | nil => simp
  | cons r ps ih =>
    cases i with
    | zero => simp [List.set]
    | succ j => simp [List.set, ih]

/-- Claim C5 counterexample: with the unique-named store holding a and b,
update of a with a replacement named b succeeds and yields a collection with
two profiles named b, so name uniqueness is not preserved by update. -/
theorem update_profile_breaks_uniqueness_cex :
    names_unique worldAB ∧
    (update_profile worldAB ("a".data) profB2).1 = Except.ok () ∧
    ¬ names_unique (update_profile worldAB ("a".data) profB2).2 := by
  refine ⟨by decide, by rfl, by decide⟩

/-- Claim C5 amended: create and delete always preserve name uniqueness of
the stored collection, and update preserves it provided the replacement
keeps the old name or carries a name not already stored; update with a
replacement renaming onto another existing name is the sole exception. -/
theorem storage_ops_preserve_uniqueness (w : World) (p newp : Profile) (name : Str) :
    (names_unique w → names_unique (create_profile w p).2) ∧
    (names_unique w → names_unique (delete_profile w name).2) ∧
    (names_unique w →
      (newp.name = name ∨ newp.name ∉ (stored_profiles w).map (fun q => q.name)) →
      names_unique (update_profile w name newp).2) := by
  refine ⟨?_, ?_, ?_⟩
  · intro hu
    cases hs : w.storageFile with
    | none =>
      simp only [create_profile, profile_exists, load, save, hs]
      split
      · rename_i hex
        simp [StorageData.new] at hex
      · simp [names_unique, stored_profiles, StorageData.new]
    | some d =>
      have hu2 : (d.profiles.map (fun q => q.name)).Nodup := by
        simpa [names_unique, stored_profiles, hs] using hu
      simp only [create_profile, profile_exists, load, save, hs]
      split
      · rename_i hex
        simpa [names_unique, stored_profiles, hs] using hu
      · rename_i hex
        have hnot : p.name ∉ d.profiles.map (fun q => q.name) := by
          intro hm
          obtain ⟨q, hq1, hq2⟩ := List.mem_map.mp hm
          exact hex (List.any_eq_true.mpr ⟨q, hq1, by simp [hq2]⟩)
        simp only [names_unique, stored_profiles, List.map_append]
        rw [List.nodup_append]
        refine ⟨hu2, List.nodup_singleton _, ?_⟩
        intro x hx hxm
        simp at hxm
        subst hxm
        exact hnot hx
  · intro hu
    cases hs : w.storageFile with
    | none =>
      simp only [delete_profile, load, save, hs]
      simp [position, names_unique, stored_profiles, StorageData.new]
    | some d =>
      have hu2 : (d.profiles.map (fun q => q.name)).Nodup := by
        simpa [names_unique, stored_profiles, hs] using hu
      simp only [delete_profile, load, save, hs]
      cases hpos : position (fun q => q.name == name) d.profiles with
      | none => simpa [names_unique, stored_profiles, hs] using hu
      | some i =>
        simp only [names_unique, stored_profiles]
        exact hu2.sublist ((List.eraseIdx_sublist _ _).map _)
  · intro hu hname
    cases hs : w.storageFile with
    | none =>
      simp only [update_profile, load, save, hs]
      simp [position, names_unique, stored_profiles, StorageData.new]
    | some d =>
      have hu2 : (d.profiles.map (fun q => q.name)).Nodup := by
        simpa [names_unique, stored_profiles, hs] using hu
      simp only [update_profile, load, save, hs]
      cases hpos : position (fun q => q.name == name) d.profiles with
      | none => simpa [names_unique, stored_profiles, hs] using hu
      | some i =>
        simp only [names_unique, stored_profiles]
        rw [map_name_set]
        rcases hname with he | hne
        · obtain ⟨q, hq1, hq2⟩ := position_some hpos
          have hqn : q.name = name := by simpa using hq2
          have hgm : (d.profiles.map (fun r => r.name))[i]? = some newp.name := by
            rw [List.getElem?_map, hq1]
            simp [hqn, he]
          rw [set_self_of_getElem _ _ _ hgm]
          exact hu2
        · refine nodup_set_of_not_mem _ _ _ hu2 ?_
          simpa [stored_profiles, hs] using hne

/-- Claim C5 witness: the amended preservation statements exercised on the
concrete two-profile store: creating a fresh name, deleting b, and updating
a in place with its own name kept. -/
theorem storage_ops_preserve_uniqueness_witness :
    names_unique (create_profile worldAB profWork).2 ∧
    names_unique (delete_profile worldAB ("b".data)).2 ∧
    names_unique (update_profile worldAB ("a".data)
      ⟨("a".data), ("ux".data), ("ex".data), ("kx".data)⟩).2 := by
  have h := storage_ops_preserve_uniqueness worldAB profWork
    ⟨("a".data), ("ux".data), ("ex".data), ("kx".data)⟩ ("b".data)
  have h2 := storage_ops_preserve_uniqueness worldAB profWork
    ⟨("a".data), ("ux".data), ("ex".data), ("kx".data)⟩ ("a".data)
  exact ⟨h.1 (by decide), h.2.1 (by decide), h2.2.2 (by decide) (Or.inl (by decide))⟩

/-- Claim C1 witness: idempotence, single block and trailing block position
exercised at a concrete home directory, the work profile and empty content. -/
theorem upsert_idempotent_witness :
    update_config_content ("/home/u".data)
        (update_config_content ("/home/u".data) ([]) profWork) profWork =
      update_config_content ("/home/u".data) ([]) profWork ∧
    (lines (update_config_content ("/home/u".data) ([]) profWork)).count
      (host_marker profWork.name) = 1 ∧
    ∃ a, update_config_content ("/home/u".data) ([]) profWork =
      a ++ new_entry ("/home/u".data) profWork :=
  upsert_idempotent ("/home/u".data) profWork ([]) (by decide) (by decide)

/-- Claim C3 witness: preservation exercised on content holding one
unrelated host entry. -/
theorem upsert_preserves_unrelated_witness :
    ∃ mid, (mid = [] ∨ mid = [[]]) ∧
      update_config_content ("/home/u".data)
          (("# My server\nHost myserver\n  HostName example.com\n".data)) profWork =
        joinLines (lines ("# My server\nHost myserver\n  HostName example.com\n".data) ++ mid) ++
          new_entry ("/home/u".data) profWork ∧
      lines (update_config_content ("/home/u".data)
          (("# My server\nHost myserver\n  HostName example.com\n".data)) profWork) =
        lines ("# My server\nHost myserver\n  HostName example.com\n".data) ++ mid ++
          entry_lines ("/home/u".data) profWork ∧
      (lines (update_config_content ("/home/u".data)
          (("# My server\nHost myserver\n  HostName example.com\n".data)) profWork)).count
        (host_marker profWork.name) = 1 :=
  upsert_preserves_unrelated ("/home/u".data) profWork
    ("# My server\nHost myserver\n  HostName example.com\n".data)
    (by decide) (by decide) (by decide)

/-- Claim C6 counterexample: deleting the work profile succeeds and removes
it from storage, yet the SSH config file afterwards is untouched and still
contains the work host block, so delete does not trigger HostBlock removal. -/
theorem delete_leaves_ssh_block_cex :
    (handle_delete worldDelete ("work".data) true).1 = Except.ok () ∧
    stored_profiles (handle_delete worldDelete ("work".data) true).2 = [] ∧
    (handle_delete worldDelete ("work".data) true).2.sshConfigFile = some sshBlockWork ∧
    (lines sshBlockWork).count (host_marker ("work".data)) = 1 := by
  refine ⟨by rfl, by decide, by decide, by decide⟩

/-- Claim C6 amended: delete only mutates the stored collection; the SSH
config file and its backup are never touched by handle_delete, because
remove_host is not invoked on the delete path. -/
theorem handle_delete_ssh_frame (w : World) (name : Str) (confirm : Bool) :
    (handle_delete w name confirm).2.sshConfigFile = w.sshConfigFile ∧
    (handle_delete w name confirm).2.sshBakFile = w.sshBakFile := by
  cases hs : w.storageFile with
  | none =>
    simp [handle_delete, profile_exists, delete_profile, load, save, hs, StorageData.new,
      position]
  | some d =>
    simp only [handle_delete, profile_exists, delete_profile, load, save, hs]
    split
    · simp
    · split
      · simp
      · cases hpos : position (fun q => q.name == name) d.profiles <;> simp [hpos]

theorem stored_apply (w : World) (p : Profile) (scope : ConfigScope) :
    stored_profiles (apply_profile w p scope).2 = stored_profiles w := by
  unfold apply_profile
  split
  · rfl
  · cases scope <;> rfl

theorem stored_add_host (home : Str) (w : World) (p : Profile) :
    stored_profiles (add_or_update_host home w p) = stored_profiles w := by
  unfold add_or_update_host ensure_ssh_config_exists backup_ssh_config
  cases hssh : w.sshConfigFile <;> simp [stored_profiles, hssh]

/-- Claim C10: switch_profile never modifies the stored profile collection,
whatever its outcome; only the git configuration and the SSH files are
written, and the storage file is merely read (created empty when absent). -/
theorem switch_preserves_storage (home : Str) (w : World) (name : Str) (scope : ConfigScope) :
    stored_profiles (switch_profile home w name scope).2 = stored_profiles w := by
  cases hs : w.storageFile with
  | none =>
    simp [switch_profile, get_profile, load, hs, stored_profiles, StorageData.new]
  | some d =>
    simp only [switch_profile, get_profile, load, hs]
    cases hf : d.profiles.find? (fun q => q.name == name) with
    | none => simp [stored_profiles, hs]
    | some p =>
      simp only
      split
      · simp [stored_profiles, hs]
      · cases hap : apply_profile w p scope with
        | mk r w2 =>
          have hap2 := stored_apply w p scope
          rw [hap] at hap2
          cases r with
          | error e => simpa [stored_profiles, hs] using hap2
          | ok u =>
            simp only [stored_add_host]
            simpa [stored_profiles, hs] using hap2

/-- Claim C2: with the profile present but its key file absent, switch fails
with SshKeyNotFound carrying the resolved path, before any git config or
SSH-file mutation; with the key present, Local scope outside a repository
fails with NotGitRepo, again leaving git config and SSH files untouched. -/
theorem switch_checks_order (home : Str) (w : World) (name : Str) (scope : ConfigScope)
    (p : Profile) :
    ((get_profile w name).1 = some p → validate_ssh_key w p.ssh_key_name = false →
      (switch_profile home w name scope).1 =
        Except.error (ProfileError.SshKeyNotFound (get_ssh_key_path home p.ssh_key_name)) ∧
      (switch_profile home w name scope).2.sshConfigFile = w.sshConfigFile ∧
      (switch_profile home w name scope).2.sshBakFile = w.sshBakFile ∧
      (switch_profile home w name scope).2.globalName = w.globalName ∧
      (switch_profile home w name scope).2.globalEmail = w.globalEmail ∧
      (switch_profile home w name scope).2.localName = w.localName ∧
      (switch_profile home w name scope).2.localEmail = w.localEmail) ∧
    ((get_profile w name).1 = some p → validate_ssh_key w p.ssh_key_name = true →
      scope = ConfigScope.Local → w.isRepo = false →
      (switch_profile home w name scope).1 = Except.error ProfileError.NotGitRepo ∧
      (switch_profile home w name scope).2.sshConfigFile = w.sshConfigFile ∧
      (switch_profile home w name scope).2.sshBakFile = w.sshBakFile ∧
      (switch_profile home w name scope).2.globalName = w.globalName ∧
      (switch_profile home w name scope).2.globalEmail = w.globalEmail ∧
      (switch_profile home w name scope).2.localName = w.localName ∧
      (switch_profile home w name scope).2.localEmail = w.localEmail) := by
  constructor
  · intro h1 h2
    cases hs : w.storageFile with
    | none =>
      rw [show get_profile w name = ((load w).1.profiles.find? (fun q => q.name == name),
        (load w).2) from rfl] at h1
      simp [load, hs, StorageData.new] at h1
    | some d =>
      simp only [get_profile, load, hs] at h1
      simp [switch_profile, get_profile, load, hs, h1, h2]
  · intro h1 h2 hscope hrepo
    subst hscope
    cases hs : w.storageFile with
    | none =>
      rw [show get_profile w name = ((load w).1.profiles.find? (fun q => q.name == name),
        (load w).2) from rfl] at h1
      simp [load, hs, StorageData.new] at h1
    | some d =>
      simp only [get_profile, load, hs] at h1
      simp [switch_profile, get_profile, load, hs, h1, h2, apply_profile,
        is_git_repository, hrepo]

/-- Claim C2 witness: both failure scenarios exercised on concrete worlds
holding the work profile, one without the key file and one with the key
file but outside a repository. -/
theorem switch_checks_order_witness :
    ((switch_profile ("/home/u".data) worldKeyMissing ("work".data) ConfigScope.Global).1 =
      Except.error (ProfileError.SshKeyNotFound
        (get_ssh_key_path ("/home/u".data) profWork.ssh_key_name)) ∧
      (switch_profile ("/home/u".data) worldKeyMissing ("work".data)
        ConfigScope.Global).2.sshConfigFile = worldKeyMissing.sshConfigFile) ∧
    ((switch_profile ("/home/u".data) worldNoRepo ("work".data) ConfigScope.Local).1 =
      Except.error ProfileError.NotGitRepo ∧
      (switch_profile ("/home/u".data) worldNoRepo ("work".data)
        ConfigScope.Local).2.sshConfigFile = worldNoRepo.sshConfigFile) := by
  have h1 := (switch_checks_order ("/home/u".data) worldKeyMissing ("work".data)
    ConfigScope.Global profWork).1 (by decide) (by decide)
  have h2 := (switch_checks_order ("/home/u".data) worldNoRepo ("work".data)
    ConfigScope.Local profWork).2 (by decide) (by decide) rfl (by decide)
  exact ⟨⟨h1.1, h1.2.1⟩, ⟨h2.1, h2.2.1⟩⟩

theorem find_profile_loop_eq_find (username email : Str) (ps : List Profile) :
    find_profile_loop username email ps =
      ps.find? (fun p => p.username == username && p.email == email) := by
  induction ps with
  | nil => rfl
  | cons p ps ih =>
    by_cases h : (p.username == username && p.email == email) = true
    · simp [find_profile_loop, List.find?_cons, h]
    · simp [find_profile_loop, List.find?_cons, h, ih]

theorem load_load (w : World) : load (load w).2 = ((load w).1, (load w).2) := by
  cases hs : w.storageFile <;> simp [load, hs]

theorem load_cfg_fields (w : World) :
    (load w).2.globalName = w.globalName ∧ (load w).2.globalEmail = w.globalEmail ∧
    (load w).2.localName = w.localName ∧ (load w).2.localEmail = w.localEmail ∧
    (load w).2.isRepo = w.isRepo := by
  cases hs : w.storageFile <;> simp [load, hs]

theorem get_current_profile_load (w : World) (scope : ConfigScope) :
    get_current_profile (load w).2 scope = get_current_profile w scope := by
  obtain ⟨h1, h2, h3, h4, _⟩ := load_cfg_fields w
  cases scope <;> simp [get_current_profile, get_config, h1, h2, h3, h4]

/-- Claim C9: status resolves each scope independently; for a scope with a
full identity the result is the first stored profile in collection order
whose username and email both match exactly, and it is None when the scope
has no identity, when the local scope is queried outside a repository, or
when no stored profile matches (find? returns none then). -/
theorem status_spec (w : World) :
    (get_current_profile w ConfigScope.Global = none →
      (get_current_status w).1.global = none) ∧
    (∀ u e, get_current_profile w ConfigScope.Global = some (u, e) →
      (get_current_status w).1.global =
        (stored_profiles w).find? (fun p => p.username == u && p.email == e)) ∧
    (w.isRepo = false → (get_current_status w).1.loc = none) ∧
    (w.isRepo = true → get_current_profile w ConfigScope.Local = none →
      (get_current_status w).1.loc = none) ∧
    (∀ u e, w.isRepo = true → get_current_profile w ConfigScope.Local = some (u, e) →
      (get_current_status w).1.loc =
        (stored_profiles w).find? (fun p => p.username == u && p.email == e)) := by
  refine ⟨?_, ?_, ?_, ?_, ?_⟩
  · intro hG
    simp [get_current_status, hG]
  · intro u e hG
    simp [get_current_status, hG, find_profile_by_credentials, get_all_profiles,
      find_profile_loop_eq_find, load_profiles]
  · intro hR
    cases hG : get_current_profile w ConfigScope.Global with
    | none =>
      simp [get_current_status, hG, is_git_repository, hR]
    | some ue =>
      obtain ⟨u, e⟩ := ue
      simp [get_current_status, hG, find_profile_by_credentials, get_all_profiles,
        is_git_repository, (load_cfg_fields w).2.2.2.2, hR]
  · intro hR hL
    cases hG : get_current_profile w ConfigScope.Global with
    | none =>
      simp [get_current_status, hG, is_git_repository, hR, hL]
    | some ue =>
      obtain ⟨u, e⟩ := ue
      simp [get_current_status, hG, find_profile_by_credentials, get_all_profiles,
        is_git_repository, (load_cfg_fields w).2.2.2.2, hR,
        get_current_profile_load, hL]
  · intro u e hR hL
    cases hG : get_current_profile w ConfigScope.Global with
    | none =>
      simp [get_current_status, hG, is_git_repository, hR, hL,
        find_profile_by_credentials, get_all_profiles, find_profile_loop_eq_find,
        load_profiles]
    | some ue =>
      obtain ⟨u2, e2⟩ := ue
      simp [get_current_status, hG, find_profile_by_credentials, get_all_profiles,
        is_git_repository, (load_cfg_fields w).2.2.2.2, hR,
        get_current_profile_load, hL, find_profile_loop_eq_find, load_load,
        load_profiles, stored_load]

/-- Claim C9 witness: on a concrete world whose global identity matches the
stored work profile and with no repository present, status yields the find?
result globally and None locally. -/
theorem status_spec_witness :
    (get_current_status worldStatus).1.global =
      (stored_profiles worldStatus).find?
        (fun p => p.username == ("jdoe".data) && p.email == ("j@co.com".data)) ∧
    (get_current_status worldStatus).1.loc = none := by
  have h := status_spec worldStatus
  exact ⟨h.2.1 ("jdoe".data) ("j@co.com".data) (by decide), h.2.2.1 (by decide)⟩

/-- Claim C8 counterexample: a git invocation that exits non-zero for a
reason other than the key being unset (ghost flag false, a fatal diagnostic
on stderr) is still mapped to Ok none by get_config instead of being
propagated as an error, because every non-zero exit becomes InvalidInput. -/
theorem get_config_swallows_other_failures_cex :
    GitExec.get_config (GitExec.GitOutcome.nonZeroExit false
      ("fatal: unable to read config file".data)) = Except.ok none ∧
    (GitExec.get_config (GitExec.GitOutcome.nonZeroExit false
      ("fatal: unable to read config file".data))).isOk = true := by
  exact ⟨rfl, rfl⟩

/-- Claim C8 amended: get_config returns None exactly when the tool exited
non-zero, regardless of whether the key was unset or the command failed for
another reason; only spawn failures (missing executable, I/O error)
propagate as errors, and success yields the trimmed stdout. -/
theorem get_config_characterization (o : GitExec.GitOutcome) :
    (GitExec.get_config o = Except.ok none ↔
      ∃ b s, o = GitExec.GitOutcome.nonZeroExit b s) ∧
    ((∃ e, GitExec.get_config o = Except.error e) ↔
      o = GitExec.GitOutcome.spawnNotFound ∨ o = GitExec.GitOutcome.spawnIoError) ∧
    (∀ s, o = GitExec.GitOutcome.success s →
      GitExec.get_config o = Except.ok (some (trim s))) := by
  cases o with
  | success s =>
    refine ⟨by simp [GitExec.get_config, GitExec.execute_git], ?_, ?_⟩
    · simp [GitExec.get_config, GitExec.execute_git]
    · intro s2 h
      simp only [GitExec.get_config, GitExec.execute_git]
      simp at h
      rw [h]
  | nonZeroExit b s =>
    refine ⟨?_, ?_, ?_⟩
    · exact ⟨fun _ => ⟨b, s, rfl⟩, fun _ => rfl⟩
    · simp [GitExec.get_config, GitExec.execute_git]
    · intro s2 h
      simp at h
  | spawnNotFound =>
    refine ⟨?_, ?_, ?_⟩
    · simp [GitExec.get_config, GitExec.execute_git]
    · simp [GitExec.get_config, GitExec.execute_git]
    · intro s2 h
      simp at h
  | spawnIoError =>
    refine ⟨?_, ?_, ?_⟩
    · simp [GitExec.get_config, GitExec.execute_git]
    · simp [GitExec.get_config, GitExec.execute_git]
    · intro s2 h
      simp at h

/-- Claim C8 witness: the success clause of the characterization exercised
at a concrete successful invocation. -/
theorem get_config_characterization_witness :
    GitExec.get_config (GitExec.GitOutcome.success (" v ".data)) =
      Except.ok (some (trim (" v ".data))) :=
  (get_config_characterization (GitExec.GitOutcome.success (" v ".data))).2.2
    (" v ".data) rfl

end Gex
